import Mathlib

/-!
Verification of the PilibhitJob job-board script (`script.js`).

JavaScript strings are modelled as lists of characters (`Str`), and the
string primitives the script uses (`toLowerCase`, `toUpperCase`, `trim`,
`split`, `includes`, `substring`, `replace(/"/g,'')`) are embedded as
executable functions on `Str`.  Case conversion is modelled on the ASCII
letters, and `trim` on the ASCII whitespace characters, which is all the
script's data exercises.

The script declares `createJobCardHTML` twice; by JavaScript function
hoisting the second declaration (the status-aware one) is the one in
effect, so that is the one embedded here.  The `fetch`/DOM plumbing of
`initJobBoard` is abstracted away: the embedding takes the fetched CSV
text as input and returns either the list of valid records or the error
message the script throws.
-/

namespace JobBoard

/-- JS strings as lists of characters. -/
abbrev Str := List Char

/-- The ASCII upper/lower case pairs. -/
def caseTable : List (Char × Char) :=
  [('A', 'a'), ('B', 'b'), ('C', 'c'), ('D', 'd'), ('E', 'e'), ('F', 'f'),
   ('G', 'g'), ('H', 'h'), ('I', 'i'), ('J', 'j'), ('K', 'k'), ('L', 'l'),
   ('M', 'm'), ('N', 'n'), ('O', 'o'), ('P', 'p'), ('Q', 'q'), ('R', 'r'),
   ('S', 's'), ('T', 't'), ('U', 'u'), ('V', 'v'), ('W', 'w'), ('X', 'x'),
   ('Y', 'y'), ('Z', 'z')]

/-- Character-level embedding of `toLowerCase` (ASCII). -/
def lowerChar (c : Char) : Char :=
  ((caseTable.find? (fun p => p.1 == c)).map Prod.snd).getD c

/-- Character-level embedding of `toUpperCase` (ASCII). -/
def upperChar (c : Char) : Char :=
  ((caseTable.find? (fun p => p.2 == c)).map Prod.fst).getD c

/-- Embedding of `String.prototype.toLowerCase`. -/
def lowerStr (s : Str) : Str := s.map lowerChar

/-- Embedding of `String.prototype.toUpperCase`. -/
def upperStr (s : Str) : Str := s.map upperChar

/-- The whitespace characters `trim` removes (ASCII subset). -/
def isWSChar (c : Char) : Bool := c == ' ' || c == '\t' || c == '\n' || c == '\r'

/-- Embedding of `String.prototype.trim`: drop whitespace from both ends. -/
def trimChars (s : Str) : Str :=
  ((s.dropWhile isWSChar).reverse.dropWhile isWSChar).reverse

/-- Embedding of `String.prototype.split(sep)` for a one-character
separator: `"".split(sep)` is `[""]`, and in general the result has one
entry more than the number of separator occurrences. -/
def splitOnChar (sep : Char) : Str → List Str
  | [] => [[]]
  | c :: cs =>
    if c = sep then [] :: splitOnChar sep cs
    else
      match splitOnChar sep cs with
      | [] => [[c]]
      | w :: ws => (c :: w) :: ws

/-- Embedding of `.replace(/"/g, '')`: remove every double quote. -/
def stripQuotes (s : Str) : Str := s.filter (fun c => c != '"')

/-- Embedding of `String.prototype.includes`: `isSubstring n h` is true
iff `n` occurs contiguously in `h`. -/
def isSubstring (needle : Str) : Str → Bool
  | [] => List.isPrefixOf needle []
  | c :: t => List.isPrefixOf needle (c :: t) || isSubstring needle t

/-- Embedding of `String.prototype.substring(0, n)`. -/
def jsSubstringTo (n : Nat) (s : Str) : Str := s.take n

/-- Embedding of `w.charAt(0).toUpperCase() + w.slice(1)` from the header
normalizer (on the empty string this yields the empty string, as in JS). -/
def capitalizeWord : Str → Str
  | [] => []
  | c :: cs => upperChar c :: cs

/-- The header-to-key normalizer from `parseCSV` (script.js lines 32-38):
lower-case the header, split on spaces; with more than one word, the
first word is followed by the remaining words capitalized and joined
with no separator; otherwise just the lower-cased header. -/
def normalizeKey (header : Str) : Str :=
  let words := splitOnChar ' ' (lowerStr header)
  if words.length > 1 then
    words.headD [] ++ List.flatten ((words.drop 1).map capitalizeWord)
  else lowerStr header

/-- A parsed CSV record: the keys in assignment order, each with the
token assigned to it (`none` models JavaScript `undefined`). -/
abbrev Row := List (Str × Option Str)

/-- `keys.forEach((key, index) => job[key] = values[index])`: one entry
per key, in key order; a key beyond the values gets `none`. -/
def zipWithOpt : List Str → List Str → Row
  | [], _ => []
  | k :: ks, [] => (k, none) :: zipWithOpt ks []
  | k :: ks, v :: vs => (k, some v) :: zipWithOpt ks vs

/-- JavaScript property lookup on a built record: the last assignment to
a key wins; an absent key reads as `undefined` (`none`). -/
def jsField (row : Row) (key : Str) : Option Str :=
  match row.reverse.find? (fun p => p.1 == key) with
  | none => none
  | some p => p.2

/-- Token cleanup from `parseCSV`: `v.trim().replace(/"/g, '')`. -/
def cleanToken (t : Str) : Str := stripQuotes (trimChars t)

/-- `csvText.trim().split('\n')` from `parseCSV`. -/
def linesOf (csvText : Str) : List Str := splitOnChar '\n' (trimChars csvText)

/-- The cleaned header tokens of the first line. -/
def headersOf (csvText : Str) : List Str :=
  (splitOnChar ',' ((linesOf csvText).headD [])).map cleanToken

/-- The normalized keys, one per header column. -/
def keysOf (csvText : Str) : List Str := (headersOf csvText).map normalizeKey

/-- One data line to one record: split on commas, clean each token,
assign tokens to keys by position. -/
def rowFromLine (keys : List Str) (line : Str) : Row :=
  zipWithOpt keys ((splitOnChar ',' line).map cleanToken)

/-- `parseCSV` (script.js lines 23-51): trim, split into lines, first
line is the header, every further line becomes one record.  The
`lines.length === 0` guard of the source is kept even though a split
never returns an empty array. -/
def parseCSV (csvText : Str) : List Row :=
  if (linesOf csvText).length = 0 then []
  else ((linesOf csvText).drop 1).map (rowFromLine (keysOf csvText))

/-- The record validity test of `initJobBoard` (line 168):
`job.jobTitle && job.jobTitle.toLowerCase() !== 'jobtitle'`. -/
def validJob (row : Row) : Bool :=
  match jsField row "jobTitle".toList with
  | none => false
  | some t => t != [] && lowerStr t != "jobtitle".toList

/-- The data path of `initJobBoard` after a successful fetch (lines
163-175): parse, discard invalid records, and fail with the exact
message of line 171 when nothing survives. -/
def initJobBoard (csvText : Str) : Except Str (List Row) :=
  let allJobs := (parseCSV csvText).filter validJob
  if allJobs.length = 0 then
    Except.error "No valid job data found after parsing.".toList
  else Except.ok allJobs

/-- A normalized job record as the renderer and filter consume it.
`salary` and `status` are optional because the script guards their
absence; the other fields are accessed unguarded. -/
structure Job where
  jobTitle : Str
  company : Str
  type : Str
  location : Str
  salary : Option Str
  description : Str
  applyLink : Str
  status : Option Str
deriving DecidableEq

/-- The category stage of `filterAndSearchJobs` (lines 133-135). -/
def categoryStage (jobsIn : List Job) (currentFilter : Str) : List Job :=
  if currentFilter ≠ "All".toList then
    jobsIn.filter (fun job => trimChars job.type == currentFilter)
  else jobsIn

/-- The per-record search predicate of the search stage (lines 139-145):
the term occurs in one of the five lower-cased fields. -/
def jobMatches (searchTerm : Str) (job : Job) : Bool :=
  isSubstring searchTerm (lowerStr job.jobTitle) ||
  isSubstring searchTerm (lowerStr job.company) ||
  isSubstring searchTerm (lowerStr job.description) ||
  isSubstring searchTerm (lowerStr job.location) ||
  isSubstring searchTerm (lowerStr job.type)

/-- `filterAndSearchJobs` (lines 128-149): the search term is the
lower-cased, trimmed input value; category stage, then, when the term is
non-empty, the search stage. -/
def filterAndSearchJobs (allJobs : List Job) (currentFilter searchInput : Str) : List Job :=
  let searchTerm := trimChars (lowerStr searchInput)
  let filtered1 := categoryStage allJobs currentFilter
  if searchTerm ≠ [] then filtered1.filter (jobMatches searchTerm) else filtered1

/-- `job.status ? job.status.trim() : 'Active'` (line 205): an absent or
empty status reads as "Active", a present one is trimmed. -/
def jobStatusOf (job : Job) : Str :=
  match job.status with
  | none => "Active".toList
  | some s => if s ≠ [] then trimChars s else "Active".toList

/-- `jobStatus === 'Expired' || jobStatus === 'Filled'` (line 211). -/
def isClosedStatus (s : Str) : Bool :=
  s == "Expired".toList || s == "Filled".toList

/-- The badge class chosen at lines 208-217. -/
def badgeClassOf (job : Job) : Str :=
  if isClosedStatus (jobStatusOf job) then "status-closed".toList
  else "status-active".toList

/-- The `isApplyActive` flag of lines 209-213. -/
def isApplyActiveOf (job : Job) : Bool := !(isClosedStatus (jobStatusOf job))

/-- The `applyButtonHTML` fragment of lines 220-222: a live link to
`applyLink` in a new browsing context when active, otherwise a disabled
button labeled `Application <status>`. -/
def applyButtonHTMLOf (job : Job) : Str :=
  if isApplyActiveOf job then
    "<a href=\"".toList ++ job.applyLink ++
      "\" target=\"_blank\" class=\"apply-btn\">Apply Now <i class=\"fas fa-arrow-right\"></i></a>".toList
  else
    "<button class=\"apply-btn disabled\">Application ".toList ++ jobStatusOf job ++
      "</button>".toList

/-- The icon selection of lines 200-203. -/
def iconOf (job : Job) : Str :=
  if isSubstring "wfh".toList (lowerStr job.type) then "fas fa-home".toList
  else if isSubstring "data entry".toList (lowerStr job.type) then "fas fa-keyboard".toList
  else if isSubstring "telecalling".toList (lowerStr job.type) then "fas fa-phone-alt".toList
  else "fas fa-briefcase".toList

/-- `${job.salary || 'Competitive'}` (line 235). -/
def salaryDisplayOf (job : Job) : Str :=
  match job.salary with
  | none => "Competitive".toList
  | some s => if s ≠ [] then s else "Competitive".toList

/-- `${job.description.substring(0, 100)}...` (line 237): the first 100
characters with the ellipsis appended unconditionally. -/
def descriptionShownOf (job : Job) : Str :=
  jsSubstringTo 100 job.description ++ "...".toList

/-- The effective `createJobCardHTML` (script.js lines 199-243), as the
concatenation the template literal denotes. -/
def createJobCardHTML (job : Job) : Str :=
  "\n        <div class=\"job-card\">\n            \n            <span class=\"job-status-tag ".toList
  ++ badgeClassOf job ++ "\">".toList ++ upperStr (jobStatusOf job)
  ++ "</span>\n            \n            <h3 title=\"".toList ++ job.jobTitle
  ++ "\">".toList ++ job.jobTitle
  ++ "</h3>\n            <span class=\"company\">".toList ++ job.company
  ++ "</span>\n            <div class=\"meta\">\n                <span><i class=\"".toList
  ++ iconOf job ++ "\"></i> ".toList ++ job.type
  ++ "</span>\n                <span><i class=\"fas fa-map-marker-alt\"></i> ".toList
  ++ job.location
  ++ "</span>\n                <span><i class=\"fas fa-money-bill-wave\"></i> ".toList
  ++ salaryDisplayOf job
  ++ "</span>\n            </div>\n            <p>".toList ++ descriptionShownOf job
  ++ "</p>\n            \n            ".toList ++ applyButtonHTMLOf job
  ++ "\n\n        </div>\n    ".toList

/-- The key-normalization contract as the specification words it
(section 4.2): split the header into words, lower-case every word, join
with no separator, upper-casing the first letter of every word after
the first.  Stated independently of `normalizeKey` for the refinement
claim C5. -/
def camelCaseSpec (header : Str) : Str :=
  match splitOnChar ' ' header with
  | [] => []
  | w :: ws => lowerStr w ++ List.flatten (ws.map (fun v => capitalizeWord (lowerStr v)))

/-! ### Helper lemmas about the string primitives -/

/-- A split never produces an empty list of fragments. -/
theorem splitOnChar_ne_nil (sep : Char) (l : Str) : splitOnChar sep l ≠ [] := by
  induction l with
  | nil => simp [splitOnChar]
  | cons c cs ih =>
    simp only [splitOnChar]
    split
    · simp
    · split
      · simp
      · simp

/-- A split with a single fragment returns the whole input. -/
theorem splitOnChar_eq_singleton {sep : Char} {l w : Str}
    (h : splitOnChar sep l = [w]) : w = l := by
  induction l generalizing w with
  | nil =>
    simp only [splitOnChar, List.cons.injEq] at h
    exact h.1.symm
  | cons c cs ih =>
    simp only [splitOnChar] at h
    split at h
    · obtain ⟨h1, h2⟩ := List.cons.injEq .. ▸ h
      exact absurd h2 (splitOnChar_ne_nil _ _)
    · rename_i hc
      cases hcs : splitOnChar sep cs with
      | nil => exact absurd hcs (splitOnChar_ne_nil _ _)
      | cons w' ws' =>
        rw [hcs] at h
        obtain ⟨h1, h2⟩ := List.cons.injEq .. ▸ h
        subst h2
        have := ih (w := w') hcs
        subst this
        exact h1.symm

/-- Lower-casing sends only the space character to the space character. -/
theorem lowerChar_eq_space_iff (c : Char) : lowerChar c = ' ' ↔ c = ' ' := by
  unfold lowerChar
  cases h : caseTable.find? (fun p => p.1 == c) with
  | none => simp
  | some p =>
    have hp : p ∈ caseTable := List.mem_of_find?_eq_some h
    have hc : p.1 = c := by
      have := List.find?_some h
      simpa using this
    have key : ∀ q ∈ caseTable, q.2 ≠ ' ' ∧ q.1 ≠ ' ' := by decide
    simp only [Option.map_some', Option.getD_some]
    constructor
    · intro hh; exact absurd hh (key p hp).1
    · intro hh; rw [← hc] at hh; exact absurd hh (key p hp).2

/-- Splitting on spaces commutes with lower-casing. -/
theorem splitOnChar_space_lowerStr (l : Str) :
    splitOnChar ' ' (lowerStr l) = (splitOnChar ' ' l).map lowerStr := by
  induction l with
  | nil => simp [splitOnChar, lowerStr]
  | cons c cs ih =>
    by_cases hc : c = ' '
    · subst hc
      have hsp : lowerChar ' ' = ' ' := by decide
      simp only [lowerStr, List.map_cons] at ih ⊢
      rw [hsp]
      simp only [splitOnChar]
      simp [ih, lowerStr]
    · have hlc : lowerChar c ≠ ' ' := fun hx => hc ((lowerChar_eq_space_iff c).mp hx)
      obtain ⟨w, ws, hws⟩ : ∃ w ws, splitOnChar ' ' cs = w :: ws := by
        cases hcs : splitOnChar ' ' cs with
        | nil => exact absurd hcs (splitOnChar_ne_nil _ _)
        | cons w ws => exact ⟨w, ws, rfl⟩
      have h1 : splitOnChar ' ' (c :: cs) = (c :: w) :: ws := by
        simp only [splitOnChar, if_neg hc, hws]
      have h2 : splitOnChar ' ' (lowerStr (c :: cs)) =
          (lowerChar c :: lowerStr w) :: List.map lowerStr ws := by
        have hmap : splitOnChar ' ' (lowerStr cs) = lowerStr w :: List.map lowerStr ws := by
          rw [ih, hws]; simp
        simp only [lowerStr, List.map_cons, splitOnChar, if_neg hlc]
        have hcs' : List.map lowerChar cs = lowerStr cs := rfl
        rw [hcs', hmap]
        rfl
      rw [h1, h2]
      simp [lowerStr]

/-- `isSubstring` decides contiguous-substring occurrence. -/
theorem isSubstring_iff (needle hay : Str) :
    isSubstring needle hay = true ↔ needle <:+: hay := by
  induction hay with
  | nil => simp [isSubstring]
  | cons c t ih =>
    rw [List.infix_cons_iff]
    simp [isSubstring, ih]

/-- Trimming an all-whitespace string yields the empty string. -/
theorem trimChars_eq_nil {s : Str} (h : ∀ c ∈ s, isWSChar c = true) :
    trimChars s = [] := by
  unfold trimChars
  rw [List.dropWhile_eq_nil_iff.mpr h]
  simp

/-- Lower-casing fixes whitespace characters. -/
theorem lowerChar_ws {c : Char} (h : isWSChar c = true) : lowerChar c = c := by
  simp only [isWSChar, Bool.or_eq_true, beq_iff_eq] at h
  rcases h with ((h | h) | h) | h <;> subst h <;> decide

/-- The search predicate, spelled out as substring occurrence in the five
lower-cased fields. -/
theorem jobMatches_iff (t : Str) (job : Job) :
    jobMatches t job = true ↔
      (t <:+: lowerStr job.jobTitle ∨ t <:+: lowerStr job.company ∨
       t <:+: lowerStr job.description ∨ t <:+: lowerStr job.location ∨
       t <:+: lowerStr job.type) := by
  simp only [jobMatches, Bool.or_eq_true, isSubstring_iff]
  tauto

/-! ### Sample records used by the witnesses -/

/-- A work-from-home record with exact type "WFH". -/
def jobWFH : Job :=
  { jobTitle := "Analyst".toList, company := "Acme".toList, type := "WFH".toList,
    location := "Pilibhit".toList, salary := none, description := "desc".toList,
    applyLink := "link".toList, status := none }

/-- A record whose type "wfh " differs from "WFH" in case and spacing. -/
def jobWfhSpace : Job :=
  { jobTitle := "Typist".toList, company := "Beta".toList, type := "wfh ".toList,
    location := "Pilibhit".toList, salary := none, description := "desc".toList,
    applyLink := "link".toList, status := none }

/-- A record none of whose searched fields contains a space. -/
def jobNoSpace : Job :=
  { jobTitle := "Dev".toList, company := "Acme".toList, type := "WFH".toList,
    location := "Delhi".toList, salary := none, description := "desc".toList,
    applyLink := "link".toList, status := none }

/-- A record whose status trims to "Expired". -/
def jobExpired : Job :=
  { jobTitle := "Clerk".toList, company := "Acme".toList, type := "WFH".toList,
    location := "Delhi".toList, salary := none, description := "old role".toList,
    applyLink := "link".toList, status := some " Expired ".toList }

/-- A record whose status is "Filled". -/
def jobFilled : Job :=
  { jobTitle := "Clerk".toList, company := "Acme".toList, type := "WFH".toList,
    location := "Delhi".toList, salary := none, description := "old role".toList,
    applyLink := "link".toList, status := some "Filled".toList }

/-! ### The claims -/

/-- With the empty search input the search stage is skipped. -/
theorem filterAndSearch_empty_input (jobsIn : List Job) (cat : Str) :
    filterAndSearchJobs jobsIn cat [] = categoryStage jobsIn cat := rfl

/-- C3: with a category other than "All" (and no search text), the filter
keeps exactly the records whose trimmed `type` is string-equal to the
category — case-sensitive and whole-string, not a substring test. -/
theorem category_filter_exact (jobsIn : List Job) (cat : Str)
    (hcat : cat ≠ "All".toList) :
    (∀ job, job ∈ categoryStage jobsIn cat ↔
        job ∈ jobsIn ∧ trimChars job.type = cat) ∧
    (∀ job, job ∈ filterAndSearchJobs jobsIn cat [] ↔
        job ∈ jobsIn ∧ trimChars job.type = cat) := by
  have hstage : ∀ job, job ∈ categoryStage jobsIn cat ↔
      job ∈ jobsIn ∧ trimChars job.type = cat := by
    intro job
    unfold categoryStage
    rw [if_pos hcat]
    simp [List.mem_filter]
  refine ⟨hstage, fun job => ?_⟩
  rw [filterAndSearch_empty_input]
  exact hstage job

/-- Witness for C3: filtering `[jobWFH, jobWfhSpace]` by category "WFH"
keeps the exact match and drops the record with type "wfh ". -/
theorem category_filter_exact_witness :
    jobWFH ∈ filterAndSearchJobs [jobWFH, jobWfhSpace] "WFH".toList [] ∧
    jobWfhSpace ∉ filterAndSearchJobs [jobWFH, jobWfhSpace] "WFH".toList [] := by
  constructor
  · exact ((category_filter_exact [jobWFH, jobWfhSpace] "WFH".toList (by decide)).2
      jobWFH).mpr (by decide)
  · intro hmem
    have h2 := ((category_filter_exact [jobWFH, jobWfhSpace] "WFH".toList (by decide)).2
      jobWfhSpace).mp hmem
    exact absurd h2.2 (by decide)

/-- C4 counterexample: the claim quantifies over every non-empty
`searchText` and tests the lower-cased (untrimmed) text against the
fields, but the code trims the term first; with the all-blank search
text " " the code skips the search stage and keeps a record that
contains a space in none of its five searched fields. -/
theorem search_raw_text_counterexample :
    ¬ (∀ (jobsIn : List Job) (cat q : Str), q ≠ [] →
        ∀ job, job ∈ filterAndSearchJobs jobsIn cat q ↔
          job ∈ categoryStage jobsIn cat ∧
            (lowerStr q <:+: lowerStr job.jobTitle ∨
             lowerStr q <:+: lowerStr job.company ∨
             lowerStr q <:+: lowerStr job.description ∨
             lowerStr q <:+: lowerStr job.location ∨
             lowerStr q <:+: lowerStr job.type)) := by
  intro h
  have h2 := (h [jobNoSpace] "All".toList " ".toList (by decide) jobNoSpace).mp
    (by decide)
  exact absurd h2.2 (by decide)

/-- C4 (amended): for every criteria whose search text is non-empty
after lower-casing and trimming, the result is exactly those records of
the category-filtered set in which the lower-cased trimmed search text
occurs in at least one of the five fields, and the result is a stable
subsequence of the category stage's output, which is one of the input. -/
theorem search_stage_trimmed_exact (jobsIn : List Job) (cat q : Str)
    (h : trimChars (lowerStr q) ≠ []) :
    (∀ job, job ∈ filterAndSearchJobs jobsIn cat q ↔
        job ∈ categoryStage jobsIn cat ∧
          (trimChars (lowerStr q) <:+: lowerStr job.jobTitle ∨
           trimChars (lowerStr q) <:+: lowerStr job.company ∨
           trimChars (lowerStr q) <:+: lowerStr job.description ∨
           trimChars (lowerStr q) <:+: lowerStr job.location ∨
           trimChars (lowerStr q) <:+: lowerStr job.type)) ∧
    List.Sublist (filterAndSearchJobs jobsIn cat q) (categoryStage jobsIn cat) ∧
    List.Sublist (categoryStage jobsIn cat) jobsIn := by
  refine ⟨?_, ?_, ?_⟩
  · intro job
    simp only [filterAndSearchJobs, if_pos h]
    rw [List.mem_filter, jobMatches_iff]
  · simp only [filterAndSearchJobs, if_pos h]
    exact List.filter_sublist _
  · unfold categoryStage
    split
    · exact List.filter_sublist _
    · exact List.Sublist.refl _

/-- Witness for C4 (amended): searching "acme" over `[jobWFH,
jobWfhSpace]` with category "All" keeps exactly the record whose company
is "Acme". -/
theorem search_stage_trimmed_exact_witness :
    jobWFH ∈ filterAndSearchJobs [jobWFH, jobWfhSpace] "All".toList "Acme".toList ∧
    jobWfhSpace ∉ filterAndSearchJobs [jobWFH, jobWfhSpace] "All".toList "Acme".toList := by
  have hterm : trimChars (lowerStr "Acme".toList) ≠ [] := by decide
  constructor
  · exact ((search_stage_trimmed_exact [jobWFH, jobWfhSpace] "All".toList
      "Acme".toList hterm).1 jobWFH).mpr ⟨by decide, Or.inr (Or.inl (by decide))⟩
  · intro hmem
    have h2 := ((search_stage_trimmed_exact [jobWFH, jobWfhSpace] "All".toList
      "Acme".toList hterm).1 jobWfhSpace).mp hmem
    exact absurd h2.2 (by decide)

/-- C9: a search text made only of whitespace behaves exactly like the
empty search text — the term is trimmed before the non-emptiness test,
so the search stage is skipped entirely. -/
theorem whitespace_search_noop (jobsIn : List Job) (cat q : Str)
    (h : ∀ c ∈ q, isWSChar c = true) :
    filterAndSearchJobs jobsIn cat q = filterAndSearchJobs jobsIn cat [] := by
  have hlq : ∀ c ∈ lowerStr q, isWSChar c = true := by
    intro c hc
    obtain ⟨c', hc', rfl⟩ := List.mem_map.mp hc
    rw [lowerChar_ws (h c' hc')]
    exact h c' hc'
  have ht : trimChars (lowerStr q) = [] := trimChars_eq_nil hlq
  rw [filterAndSearch_empty_input]
  simp [filterAndSearchJobs, ht]

/-- Witness for C9: searching "  " (two blanks) equals searching "". -/
theorem whitespace_search_noop_witness :
    filterAndSearchJobs [jobWFH, jobWfhSpace] "All".toList "  ".toList =
      filterAndSearchJobs [jobWFH, jobWfhSpace] "All".toList [] :=
  whitespace_search_noop [jobWFH, jobWfhSpace] "All".toList "  ".toList (by decide)

/-- C1: a record whose trimmed status is exactly "Expired" or "Filled"
renders a disabled control labeled "Application Expired" /
"Application Filled" with no navigable link (no `href`, no anchor) and a
closed badge; a record with no status field renders identically to one
with status "Active", with an open badge and a live link to `applyLink`
opening in a new browsing context. -/
theorem status_gates_apply_control (job : Job) :
    (∀ s, job.status = some s → trimChars s = "Expired".toList →
        applyButtonHTMLOf job =
          "<button class=\"apply-btn disabled\">Application Expired</button>".toList ∧
        badgeClassOf job = "status-closed".toList ∧
        isApplyActiveOf job = false ∧
        isSubstring "href".toList (applyButtonHTMLOf job) = false ∧
        isSubstring "<a".toList (applyButtonHTMLOf job) = false) ∧
    (∀ s, job.status = some s → trimChars s = "Filled".toList →
        applyButtonHTMLOf job =
          "<button class=\"apply-btn disabled\">Application Filled</button>".toList ∧
        badgeClassOf job = "status-closed".toList ∧
        isApplyActiveOf job = false ∧
        isSubstring "href".toList (applyButtonHTMLOf job) = false ∧
        isSubstring "<a".toList (applyButtonHTMLOf job) = false) ∧
    (job.status = none →
        createJobCardHTML job =
          createJobCardHTML { job with status := some "Active".toList } ∧
        badgeClassOf job = "status-active".toList ∧
        applyButtonHTMLOf job =
          "<a href=\"".toList ++ job.applyLink ++
            "\" target=\"_blank\" class=\"apply-btn\">Apply Now <i class=\"fas fa-arrow-right\"></i></a>".toList) := by
  refine ⟨?_, ?_, ?_⟩
  · intro s hst htr
    have hs : s ≠ [] := by
      intro h0
      rw [h0] at htr
      exact absurd htr (by decide)
    have hjs : jobStatusOf job = "Expired".toList := by
      simp [jobStatusOf, hst, hs, htr]
    have hclosed : isClosedStatus (jobStatusOf job) = true := by
      rw [hjs]; decide
    have hact : isApplyActiveOf job = false := by
      unfold isApplyActiveOf
      rw [hclosed]
      rfl
    have hbtn : applyButtonHTMLOf job =
        "<button class=\"apply-btn disabled\">Application Expired</button>".toList := by
      unfold applyButtonHTMLOf
      rw [hact, if_neg (by decide), hjs]
      decide
    refine ⟨hbtn, ?_, hact, ?_, ?_⟩
    · unfold badgeClassOf
      rw [hclosed]
      decide
    · rw [hbtn]; decide
    · rw [hbtn]; decide
  · intro s hst htr
    have hs : s ≠ [] := by
      intro h0
      rw [h0] at htr
      exact absurd htr (by decide)
    have hjs : jobStatusOf job = "Filled".toList := by
      simp [jobStatusOf, hst, hs, htr]
    have hclosed : isClosedStatus (jobStatusOf job) = true := by
      rw [hjs]; decide
    have hact : isApplyActiveOf job = false := by
      unfold isApplyActiveOf
      rw [hclosed]
      rfl
    have hbtn : applyButtonHTMLOf job =
        "<button class=\"apply-btn disabled\">Application Filled</button>".toList := by
      unfold applyButtonHTMLOf
      rw [hact, if_neg (by decide), hjs]
      decide
    refine ⟨hbtn, ?_, hact, ?_, ?_⟩
    · unfold badgeClassOf
      rw [hclosed]
      decide
    · rw [hbtn]; decide
    · rw [hbtn]; decide
  · intro hnone
    have hjs : jobStatusOf job = "Active".toList := by
      unfold jobStatusOf
      rw [hnone]
    have hjs2 : jobStatusOf { job with status := some "Active".toList } =
        "Active".toList := by
      have hA : ("Active".toList : Str) ≠ [] := by decide
      simp [jobStatusOf, hA]
      decide
    have hclosed : isClosedStatus (jobStatusOf job) = false := by
      rw [hjs]; decide
    have hact : isApplyActiveOf job = true := by
      unfold isApplyActiveOf
      rw [hclosed]
      rfl
    refine ⟨?_, ?_, ?_⟩
    · simp only [createJobCardHTML, applyButtonHTMLOf, isApplyActiveOf, badgeClassOf,
        iconOf, salaryDisplayOf, descriptionShownOf, hjs, hjs2]
    · unfold badgeClassOf
      rw [hclosed]
      rfl
    · unfold applyButtonHTMLOf
      rw [hact, if_pos (by decide)]

/-- Witness for C1: a record with status " Expired " renders the disabled
"Application Expired" button, one with "Filled" the "Application Filled"
button, and a record with no status renders exactly like one with
status "Active". -/
theorem status_gates_apply_control_witness :
    applyButtonHTMLOf jobExpired =
      "<button class=\"apply-btn disabled\">Application Expired</button>".toList ∧
    applyButtonHTMLOf jobFilled =
      "<button class=\"apply-btn disabled\">Application Filled</button>".toList ∧
    createJobCardHTML jobNoSpace =
      createJobCardHTML { jobNoSpace with status := some "Active".toList } :=
  ⟨((status_gates_apply_control jobExpired).1 " Expired ".toList rfl (by decide)).1,
   ((status_gates_apply_control jobFilled).2.1 "Filled".toList rfl (by decide)).1,
   ((status_gates_apply_control jobNoSpace).2.2 rfl).1⟩

/-- C6: the shown description is always the first 100 characters of the
record's description with the ellipsis marker appended — also when the
description is 100 characters or shorter, in which case nothing was cut
yet the marker is still appended, so the shown text differs from the
description itself. -/
theorem description_ellipsis_always (job : Job) :
    descriptionShownOf job = job.description.take 100 ++ "...".toList ∧
    (job.description.length ≤ 100 →
      descriptionShownOf job = job.description ++ "...".toList ∧
      descriptionShownOf job ≠ job.description) := by
  constructor
  · rfl
  · intro h
    constructor
    · simp [descriptionShownOf, jsSubstringTo, List.take_of_length_le h]
    · intro heq
      have hlen := congrArg List.length heq
      simp only [descriptionShownOf, jsSubstringTo, List.length_append,
        List.length_take] at hlen
      have h3 : ("...".toList : Str).length = 3 := by decide
      rw [h3] at hlen
      omega

/-- Witness for C6: a 4-character description is shown whole with the
ellipsis appended anyway. -/
theorem description_ellipsis_always_witness :
    descriptionShownOf jobNoSpace = "desc".toList ++ "...".toList ∧
    descriptionShownOf jobNoSpace ≠ jobNoSpace.description :=
  ⟨((description_ellipsis_always jobNoSpace).2 (by decide)).1,
   ((description_ellipsis_always jobNoSpace).2 (by decide)).2⟩

/-- C10: a record whose status field is present but empty renders
identically to a record with no status field at all — the presence test
is falsy-based, so the empty status also defaults to "Active" with an
open badge and a live apply control. -/
theorem empty_status_defaults_active (job : Job) :
    createJobCardHTML { job with status := some [] } =
      createJobCardHTML { job with status := none } ∧
    jobStatusOf { job with status := some [] } = "Active".toList ∧
    badgeClassOf { job with status := some [] } = "status-active".toList ∧
    isApplyActiveOf { job with status := some [] } = true := by
  have h1 : jobStatusOf { job with status := some [] } = "Active".toList := by
    unfold jobStatusOf
    simp
  have h2 : jobStatusOf { job with status := none } = "Active".toList := by
    unfold jobStatusOf
    simp
  have hclosed : isClosedStatus "Active".toList = false := by decide
  refine ⟨?_, h1, ?_, ?_⟩
  · simp only [createJobCardHTML, applyButtonHTMLOf, isApplyActiveOf, badgeClassOf,
      iconOf, salaryDisplayOf, descriptionShownOf, h1, h2]
  · unfold badgeClassOf
    rw [h1, hclosed]
    rfl
  · unfold isApplyActiveOf
    rw [h1, hclosed]
    rfl

/-- C5: the key normalizer agrees everywhere with the lower-camel-case
contract of the spec — lowercase every word, join with no separator,
uppercase the first letter of every word after the first, a single-word
header simply lowercased — and in particular sends "Job Title" to
"jobTitle" and "Salary" to "salary". -/
theorem normalizeKey_camelCase :
    (∀ header : Str, normalizeKey header = camelCaseSpec header) ∧
    normalizeKey "Job Title".toList = "jobTitle".toList ∧
    normalizeKey "Salary".toList = "salary".toList := by
  refine ⟨?_, by decide, by decide⟩
  intro h
  unfold normalizeKey camelCaseSpec
  rw [splitOnChar_space_lowerStr]
  cases hS : splitOnChar ' ' h with
  | nil => exact absurd hS (splitOnChar_ne_nil _ _)
  | cons w ws =>
    cases ws with
    | nil =>
      have hw : w = h := splitOnChar_eq_singleton hS
      subst hw
      simp [lowerStr]
    | cons v vs =>
      have hlen : (List.map lowerStr (w :: v :: vs)).length > 1 := by
        simp
      rw [if_pos hlen]
      simp only [List.map_cons, List.headD_cons, List.drop_succ_cons, List.drop_zero,
        List.map_map]
      rfl

/-- The rows `parseCSV` produces: one per line after the header, in
source order, each built by `rowFromLine` with the header's keys. -/
theorem parseCSV_eq_map (csvText : Str) :
    parseCSV csvText =
      ((linesOf csvText).drop 1).map (rowFromLine (keysOf csvText)) := by
  unfold parseCSV
  have hne : ¬ (linesOf csvText).length = 0 := fun h0 =>
    splitOnChar_ne_nil _ _ (List.length_eq_zero.mp h0)
  rw [if_neg hne]

/-- C7: on empty input the parser produces no records; in general it
splits the (trimmed) input on line breaks, takes the first line as the
header, and produces exactly one record per remaining line. -/
theorem parseCSV_lines :
    parseCSV [] = [] ∧
    (∀ csvText : Str, parseCSV csvText =
        ((linesOf csvText).drop 1).map (rowFromLine (keysOf csvText))) ∧
    (∀ csvText : Str, (parseCSV csvText).length = (linesOf csvText).length - 1) := by
  refine ⟨rfl, parseCSV_eq_map, fun csvText => ?_⟩
  rw [parseCSV_eq_map csvText]
  simp

/-- C8: the record built from a data row has exactly the header's keys,
in header order — tokens beyond the header length are dropped — and the
key at position `i` carries `values[i]?`, which is `none` exactly when
the row is short; no row is rejected, and the records keep source row
order. -/
theorem row_shape_tolerant :
    (∀ (keys values : List Str), (zipWithOpt keys values).map Prod.fst = keys) ∧
    (∀ (keys values : List Str) (i : Nat),
        (zipWithOpt keys values)[i]? = (keys[i]?).map (fun k => (k, values[i]?))) ∧
    (∀ csvText : Str, parseCSV csvText =
        ((linesOf csvText).drop 1).map (rowFromLine (keysOf csvText))) := by
  refine ⟨?_, ?_, parseCSV_eq_map⟩
  · intro keys
    induction keys with
    | nil => intro values; rfl
    | cons k ks ih =>
      intro values
      cases values with
      | nil => simpa [zipWithOpt] using ih []
      | cons v vs => simpa [zipWithOpt] using ih vs
  · intro keys
    induction keys with
    | nil => intro values i; simp [zipWithOpt]
    | cons k ks ih =>
      intro values i
      cases values with
      | nil =>
        cases i with
        | zero => simp [zipWithOpt]
        | succ n => simpa [zipWithOpt] using ih [] n
      | cons v vs =>
        cases i with
        | zero => simp [zipWithOpt]
        | succ n => simpa [zipWithOpt] using ih vs n

/-- C2: a parsed record whose `jobTitle` is absent, empty, or
case-insensitively "jobtitle" never reaches the rendered set, and when
no record survives the filter the controller fails with exactly the
message "No valid job data found after parsing.". -/
theorem invalid_records_discarded (csvText : Str) :
    (∀ row ∈ parseCSV csvText,
        (jsField row "jobTitle".toList = none ∨
         jsField row "jobTitle".toList = some [] ∨
         (∃ t, jsField row "jobTitle".toList = some t ∧
            lowerStr t = "jobtitle".toList)) →
        ∀ l, initJobBoard csvText = Except.ok l → row ∉ l) ∧
    ((parseCSV csvText).filter validJob = [] →
      initJobBoard csvText =
        Except.error "No valid job data found after parsing.".toList) := by
  constructor
  · intro row _ hbad l hok hmem
    have hv : validJob row = false := by
      unfold validJob
      rcases hbad with h | h | ⟨t, ht, hlt⟩
      · rw [h]
      · rw [h]; simp
      · rw [ht]; simp [hlt]
    simp only [initJobBoard] at hok
    split at hok
    · exact Except.noConfusion hok
    · injection hok with h2
      rw [← h2] at hmem
      have hmem2 := (List.mem_filter.mp hmem).2
      rw [hv] at hmem2
      exact Bool.noConfusion hmem2
  · intro hemp
    unfold initJobBoard
    rw [hemp]
    rfl

/-! Concrete CSV inputs for the C2 witness. -/

/-- A CSV with one good data row and one whose title token is empty. -/
def csvSample : Str := "Job Title,Company\nDev,Acme\n,X".toList

/-- The record parsed from the good row of `csvSample`. -/
def rowGood : Row :=
  [("jobTitle".toList, some "Dev".toList), ("company".toList, some "Acme".toList)]

/-- The record parsed from the bad row of `csvSample`: its title is the
empty string. -/
def rowBad : Row :=
  [("jobTitle".toList, some []), ("company".toList, some "X".toList)]

/-- A CSV whose only data row repeats the header placeholder. -/
def csvAllBad : Str := "Job Title,Company\njobtitle,Nope".toList

/-- Witness for C2: the empty-titled record of `csvSample` is not in the
rendered set, and `csvAllBad` produces the exact error message. -/
theorem invalid_records_discarded_witness :
    rowBad ∉ [rowGood] ∧
    initJobBoard csvAllBad =
      Except.error "No valid job data found after parsing.".toList := by
  constructor
  · exact (invalid_records_discarded csvSample).1 rowBad (by decide)
      (Or.inr (Or.inl (by decide))) [rowGood] (by rfl)
  · exact (invalid_records_discarded csvAllBad).2 (by rfl)

end JobBoard
